import Mathlib

/-!
Verification of the indra_network_search core against its specification.

The Python sources are shallowly embedded: pure functions become Lean
functions, generator consumption becomes structural recursion over the
candidate list, exceptions become `Except`, Python float beliefs and
elapsed seconds become `ℚ` (the code only compares them, never rounds),
and Python dicts or sets of nodes become lists (a Python set has no
specified iteration order, so list order is a modelling choice that the
final belief sort makes irrelevant wherever the code sorts).
-/

namespace IndraNet

/-- Embeds rest_util.StrNode = Union[str, Tuple[str, int]]: an unsigned node
is a bare name, a signed node is a (name, sign) tuple. -/
inductive StrNode where
  | plain (name : String)
  | signed (name : String) (sign : Nat)
deriving DecidableEq, Repr

/-- Name of a node, whether signed or not. -/
def StrNode.name : StrNode → String
  | .plain n => n
  | .signed n _ => n

/-- True for a (name, sign) tuple, mirroring Python isinstance(node, tuple). -/
def StrNode.isTuple : StrNode → Bool
  | .signed _ _ => true
  | .plain _ => false

/-- True when the node is a tuple whose second slot equals s; a bare string
compared to an int sign is never equal, which the embedding mirrors. -/
def StrNode.signIs : StrNode → Nat → Bool
  | .signed _ sg, s => sg == s
  | .plain _, _ => false

/-- Embeds one statement dict of an edge's "statements" list: the fields the
filters read.  belief is ℚ for the float score (only compared, never summed);
source_counts keeps the keys of the per-source count dict. -/
structure StmtDict where
  stmt_type : String
  belief : ℚ
  curated : Bool
  stmt_hash : Int
  source_counts : List String
deriving DecidableEq, Repr

/-- Embeds the read-only networkx DiGraph the search consumes: successor and
predecessor lists, the per-edge statement list, per-node ns and id attributes
with a membership test for the .get lookups, and the (possibly weighted)
degree view used by the cull heuristic. -/
structure Graph where
  succs : StrNode → List StrNode
  preds : StrNode → List StrNode
  edgeStmts : StrNode → StrNode → List StmtDict
  nodeNs : StrNode → String
  nodeId : StrNode → String
  hasNode : StrNode → Bool
  degr : StrNode → Option String → ℚ

/-- Embeds data_models.FilterOptions: the pydantic model's declared fields
with their defaults.  Note the statement-type field is named stmt_filter;
the model declares no exclude_stmts field. -/
structure FilterOptions where
  stmt_filter : List String := []
  allowed_ns : List String := []
  node_blacklist : List String := []
  path_length : Option Nat := none
  belief_cutoff : ℚ := 0
  curated_db_only : Bool := false
  max_paths : Nat := 50
  cull_best_node : Option Nat := none
  weighted : Option String := none
  context_weighted : Bool := false
  overall_weighted : Bool := false
deriving DecidableEq, Repr

/-- Embeds FilterOptions.no_stmt_filters. -/
def FilterOptions.no_stmt_filters (fo : FilterOptions) : Bool :=
  fo.belief_cutoff == 0 && fo.stmt_filter.isEmpty && !fo.curated_db_only

/-- Embeds FilterOptions.no_node_filters. -/
def FilterOptions.no_node_filters (fo : FilterOptions) : Bool :=
  fo.node_blacklist.isEmpty && fo.allowed_ns.isEmpty

/-! ## Subgraph result manager (result_handler.SubgraphResultManager) -/

/-- Embeds SubgraphResultManager._remove_used_filters.  The Python body is
FilterOptions(exclude_stmts=["fplx"]), but FilterOptions declares no
exclude_stmts field and sets no Config, so pydantic v1 silently ignores the
unknown keyword (default Extra.ignore): the constructed object equals
FilterOptions() with every field at its default. -/
def subgraphRemoveUsedFilters (_fo : FilterOptions) : FilterOptions := {}

/-- Embeds SubgraphResultManager._pass_stmt.  Its body reads
self.filter_options.exclude_stmts, an attribute FilterOptions does not have,
so calling it raises AttributeError; the embedding returns that error. -/
def subgraphPassStmt (_fo : FilterOptions) (_sd : StmtDict) : Except String Bool :=
  .error "AttributeError: FilterOptions object has no attribute exclude_stmts"

/-- Embeds ResultManager._get_stmt_data as the SubgraphResultManager runs it:
when no_stmt_filters holds and the hash blacklist is empty, _pass_stmt is
skipped and the statement is kept; otherwise _pass_stmt decides (and for the
subgraph manager that call raises).  The StmtData payload is modelled as the
statement dict itself, the url fields being irrelevant to the claims. -/
def subgraphGetStmtData (fo : FilterOptions) (hashBlacklist : List Int)
    (sd : StmtDict) : Except String (Option StmtDict) :=
  if fo.no_stmt_filters && hashBlacklist.isEmpty then
    .ok (some sd)
  else
    match subgraphPassStmt fo sd with
    | .error e => .error e
    | .ok true => .ok (some sd)
    | .ok false => .ok none

/-- Embeds the statement loop of SubgraphResultManager._get_edge_data_by_hash:
statements are kept in order, deduplicated by hash (first occurrence wins). -/
def subgraphCollectStmtsGo (fo : FilterOptions) (hashBlacklist : List Int)
    (acc : List StmtDict) : List StmtDict → Except String (List StmtDict)
  | [] => .ok acc
  | sd :: rest =>
    match subgraphGetStmtData fo hashBlacklist sd with
    | .error e => .error e
    | .ok none => subgraphCollectStmtsGo fo hashBlacklist acc rest
    | .ok (some s) =>
      if acc.any (fun t => t.stmt_hash == s.stmt_hash) then
        subgraphCollectStmtsGo fo hashBlacklist acc rest
      else
        subgraphCollectStmtsGo fo hashBlacklist (acc ++ [s]) rest

/-- Embeds the fail-closed tail of _get_edge_data_by_hash: an edge whose
surviving statement set is empty yields none (edge dropped). -/
def subgraphEdgeStmts (fo : FilterOptions) (hashBlacklist : List Int)
    (stmts : List StmtDict) : Except String (Option (List StmtDict)) :=
  match subgraphCollectStmtsGo fo hashBlacklist [] stmts with
  | .error e => .error e
  | .ok l => .ok (if l.isEmpty then none else some l)

/-- A statement of type fplx, as a graph edge can carry. -/
def fplxStmt : StmtDict :=
  ⟨"fplx", 9 / 10, false, 1, ["fplx"]⟩

/-- A request-supplied FilterOptions with several active filters, to show
they are discarded. -/
def requestFo : FilterOptions :=
  { stmt_filter := ["activation"], belief_cutoff := 1 / 2, curated_db_only := true }

/-- C10: the aggregator does discard the request's filter options (the
replacement is a constant), but the hard-coded exclude list is silently
dropped by pydantic (FilterOptions has no exclude_stmts field), the
replacement equals the all-defaults FilterOptions, no_stmt_filters then
short-circuits _pass_stmt, and a statement of type fplx is retained in the
edge data, contradicting the claim that no subgraph edge carries one. -/
theorem c10_fplx_not_filtered :
    (∀ fo fo' : FilterOptions,
        subgraphRemoveUsedFilters fo = subgraphRemoveUsedFilters fo') ∧
    subgraphRemoveUsedFilters requestFo = {} ∧
    (subgraphRemoveUsedFilters requestFo).no_stmt_filters = true ∧
    subgraphEdgeStmts (subgraphRemoveUsedFilters requestFo) [] [fplxStmt] =
      .ok (some [fplxStmt]) := by
  refine ⟨fun fo fo' => rfl, rfl, rfl, rfl⟩

/-! ## Orchestrator graph selection (search_api.IndraNetworkSearchAPI) -/

/-- Embeds the two graph views the IndraNetworkSearchAPI holds. -/
structure SearchAPI (γ : Type) where
  digraph : γ
  sng : γ

/-- Embeds IndraNetworkSearchAPI.get_graph (signed defaults to False in
Python; callers that write self.get_graph() pass false here). -/
def SearchAPI.getGraph {γ : Type} (api : SearchAPI γ) (signed : Bool) : γ :=
  if signed then api.sng else api.digraph

/-- Embeds IndraNetworkSearchAPI.shortest_simple_paths: the pair of (graph
handed to the traversal, graph handed to the result manager). -/
def shortestSimplePathsGraphs {γ : Type} (api : SearchAPI γ) (isSigned : Bool) : γ × γ :=
  (api.getGraph isSigned, api.getGraph isSigned)

/-- Embeds IndraNetworkSearchAPI.breadth_first_search likewise. -/
def breadthFirstSearchGraphs {γ : Type} (api : SearchAPI γ) (isSigned : Bool) : γ × γ :=
  (api.getGraph isSigned, api.getGraph isSigned)

/-- Embeds IndraNetworkSearchAPI.dijkstra: the traversal is launched with
self.get_graph() — the default, unsigned view — while the result manager
receives self.get_graph(signed=is_signed). -/
def dijkstraGraphs {γ : Type} (api : SearchAPI γ) (isSigned : Bool) : γ × γ :=
  (api.getGraph false, api.getGraph isSigned)

/-- Embeds IndraNetworkSearchAPI.shared_targets likewise. -/
def sharedTargetsGraphs {γ : Type} (api : SearchAPI γ) (isSigned : Bool) : γ × γ :=
  (api.getGraph isSigned, api.getGraph isSigned)

/-- Embeds IndraNetworkSearchAPI.shared_regulators likewise. -/
def sharedRegulatorsGraphs {γ : Type} (api : SearchAPI γ) (isSigned : Bool) : γ × γ :=
  (api.getGraph isSigned, api.getGraph isSigned)

/-- Embeds the request fields the sign and endpoint logic of query.py reads
(NetworkSearchQuery; source and target default to the empty string, sign is
validated to 0 or 1 when present). -/
structure NetworkSearchQuery where
  source : String := ""
  target : String := ""
  sign : Option Nat := none
deriving DecidableEq, Repr

/-- Modelled from the spec: QueryHandler (module query_handler, imported by
search_api but not among the source files) selects the signed graph view
exactly when the request carries a sign filter. -/
def queryHandlerSigned (q : NetworkSearchQuery) : Bool :=
  q.sign.isSome

/-- C3, evaluated at the failing input: every other launcher hands the
traversal the sign-selected view, and the query handler selects the signed
view iff the request carries a sign, but the open Dijkstra launcher always
hands the traversal the unsigned view — for a signed request the traversal
graph differs from the selected view that its own result manager receives. -/
theorem c3_dijkstra_graph_selection :
    (∀ (γ : Type) (api : SearchAPI γ) (b : Bool),
        (shortestSimplePathsGraphs api b).1 = api.getGraph b ∧
        (breadthFirstSearchGraphs api b).1 = api.getGraph b ∧
        (sharedTargetsGraphs api b).1 = api.getGraph b ∧
        (sharedRegulatorsGraphs api b).1 = api.getGraph b ∧
        (dijkstraGraphs api b).1 = api.digraph ∧
        (dijkstraGraphs api b).2 = api.getGraph b) ∧
    (∀ q : NetworkSearchQuery, queryHandlerSigned q = q.sign.isSome) ∧
    (dijkstraGraphs (SearchAPI.mk (0 : Nat) 1) true).1 ≠
      (SearchAPI.mk (0 : Nat) 1).getGraph true := by
  refine ⟨fun γ api b => ⟨rfl, rfl, rfl, rfl, rfl, rfl⟩, fun q => rfl, by decide⟩

/-! ## Open-search sign assignment (query.get_open_signed_node) -/

/-- Embeds the constant INT_PLUS of query.py. -/
def INT_PLUS : Nat := 0

/-- Embeds the constant INT_MINUS of query.py. -/
def INT_MINUS : Nat := 1

/-- Modelled from the spec: SIGNS_TO_INT_SIGN is imported from
depmap_analysis (not among the source files); on the integer signs the
queries produce it is the identity, and .get of an unknown key is None. -/
def signsToIntSign (sign : Nat) : Option Nat :=
  if sign = 0 ∨ sign = 1 then some sign else none

/-- Embeds query.get_open_signed_node.  The Python return type is a bare
node name or a (name, sign lookup) tuple whose second slot can be None, so
the embedding returns a sum. -/
def getOpenSignedNode (node : String) (reverse : Bool) (sign : Option Nat) :
    String ⊕ (String × Option Nat) :=
  match sign with
  | none => .inl node
  | some sg =>
    if reverse then .inr (node, signsToIntSign sg)
    else .inr (node, some INT_PLUS)

/-- Embeds PathQuery._get_source_node: source only means a downstream open
search, target only an upstream one, anything else raises
InvalidParametersError; the start node is then signed by
get_open_signed_node. -/
def getSourceNode (q : NetworkSearchQuery) :
    Except String ((String ⊕ (String × Option Nat)) × Bool) :=
  if q.source ≠ "" ∧ q.target = "" then
    .ok (getOpenSignedNode q.source false q.sign, false)
  else if q.source = "" ∧ q.target ≠ "" then
    .ok (getOpenSignedNode q.target true q.sign, true)
  else
    .error "InvalidParametersError: Cannot use algorithm with both source and target set."

/-! ## Neighbor filters (pathfinding.py) -/

/-- Embeds the edge orientation shared by the pathfinding filter helpers:
edge_iter pairs each neighbor n with the edge (n, start) when reverse else
(start, n); the internal sort of the neighbor set only co-orders that zip, so
the embedding filters the list in place. -/
def edgeOf (g : Graph) (startNode nbr : StrNode) (reverse : Bool) : List StmtDict :=
  if reverse then g.edgeStmts nbr startNode else g.edgeStmts startNode nbr

/-- Embeds pathfinding._namespace_filter: keep nodes whose ns attribute,
lowercased, is in the allow list. -/
def namespaceFilter (nodes : List StrNode) (g : Graph) (allowedNs : List String) :
    List StrNode :=
  nodes.filter fun x => (g.nodeNs x).toLower ∈ allowedNs

/-- Embeds pathfinding._stmt_types_filter: keep a neighbor when any statement
on its connecting edge has an allowed type (lowercased). -/
def stmtTypesFilter (startNode : StrNode) (neighborNodes : List StrNode)
    (g : Graph) (reverse : Bool) (stmtTypes : List String) : List StrNode :=
  neighborNodes.filter fun n =>
    (edgeOf g startNode n reverse).any fun sd => sd.stmt_type.toLower ∈ stmtTypes

/-- Embeds pathfinding._source_filter: keep a neighbor when some statement on
its connecting edge has a source (lowercased) in the allow list; the Python
isinstance(source_counts, dict) guard always holds in the graphs served. -/
def sourceCountsFilter (startNode : StrNode) (neighborNodes : List StrNode)
    (g : Graph) (reverse : Bool) (sources : List String) : List StrNode :=
  neighborNodes.filter fun n =>
    (edgeOf g startNode n reverse).any fun sd =>
      sd.source_counts.any fun s => s.toLower ∈ sources

/-- Embeds pathfinding._filter_curated: keep a neighbor when some statement
on its connecting edge is curated. -/
def filterCurated (startNode : StrNode) (neighborNodes : List StrNode)
    (g : Graph) (reverse : Bool) : List StrNode :=
  neighborNodes.filter fun n =>
    (edgeOf g startNode n reverse).any fun sd => sd.curated

/-- Embeds pathfinding._hash_filter: keep a neighbor when any statement hash
on its connecting edge is not blacklisted. -/
def hashFilter (startNode : StrNode) (neighborNodes : List StrNode)
    (g : Graph) (reverse : Bool) (hashes : List Int) : List StrNode :=
  neighborNodes.filter fun n =>
    (edgeOf g startNode n reverse).any fun sd => sd.stmt_hash ∉ hashes

/-- Embeds pathfinding._belief_filter: keep a neighbor when any statement on
its connecting edge has belief strictly above the cutoff. -/
def beliefFilter (startNode : StrNode) (neighborNodes : List StrNode)
    (g : Graph) (reverse : Bool) (beliefCutoff : ℚ) : List StrNode :=
  neighborNodes.filter fun n =>
    (edgeOf g startNode n reverse).any fun sd => beliefCutoff < sd.belief

/-! ## Statement filter of the translation layer (query.pass_stmt) -/

/-- Embeds query.pass_stmt: the statement check used by the BFS edge filter;
note the belief clause rejects only belief strictly below the cutoff. -/
def passStmt (stmtDict : StmtDict) (stmtTypes : List String)
    (hashBlacklist : List Int) (checkCurated : Bool) (beliefCutoff : ℚ) : Bool :=
  if stmtTypes ≠ [] ∧ stmtDict.stmt_type.toLower ∉ stmtTypes then false
  else if hashBlacklist ≠ [] ∧ stmtDict.stmt_hash ∈ hashBlacklist then false
  else if checkCurated ∧ ¬stmtDict.curated then false
  else if 0 < beliefCutoff ∧ stmtDict.belief < beliefCutoff then false
  else true

/-- Embeds the _edge_filter closure of query._get_edge_filter_func: an edge
passes when any of its statements passes pass_stmt. -/
def edgeFilterFunc (g : Graph) (u v : StrNode) (stmtTypes : List String)
    (hashBlacklist : List Int) (checkCurated : Bool) (beliefCutoff : ℚ) : Bool :=
  (g.edgeStmts u v).any fun sd =>
    passStmt sd stmtTypes hashBlacklist checkCurated beliefCutoff

/-- A statement whose belief sits exactly at the cutoff used below. -/
def edgeCaseStmt : StmtDict :=
  ⟨"activation", 1, true, 11, ["reach"]⟩

/-- C1 counterexample: with cutoff c = 1 > 0, the per-statement filter of
the translation/aggregation side retains a statement whose belief equals c,
so not every retained statement has belief strictly greater than c. -/
theorem c1_equality_retained_counterexample :
    (0 : ℚ) < 1 ∧
    passStmt edgeCaseStmt [] [] false 1 = true ∧
    ¬ ((1 : ℚ) < edgeCaseStmt.belief) := by
  refine ⟨by norm_num, by decide, by decide⟩

/-- C1 amended: for any cutoff c > 0, the neighbor-search belief filter keeps
a neighbor iff some statement on its connecting edge has belief strictly
above c (so a neighbor all of whose statements are ≤ c is dropped), while the
per-statement filter pass_stmt only rejects beliefs strictly below c, so
every statement it retains has belief ≥ c (equality retained); an edge all of
whose statements have belief < c fails the edge filter entirely. -/
theorem c1_belief_cutoff_amended (c : ℚ) (hc : 0 < c) :
    (∀ (g : Graph) (startNode : StrNode) (reverse : Bool)
        (nbrs : List StrNode) (n : StrNode),
        n ∈ beliefFilter startNode nbrs g reverse c ↔
          n ∈ nbrs ∧ ∃ sd ∈ edgeOf g startNode n reverse, c < sd.belief) ∧
    (∀ (sd : StmtDict) (ts : List String) (hb : List Int) (cur : Bool),
        passStmt sd ts hb cur c = true → c ≤ sd.belief) ∧
    (∀ (g : Graph) (u v : StrNode) (ts : List String) (hb : List Int) (cur : Bool),
        (∀ sd ∈ g.edgeStmts u v, sd.belief < c) →
        edgeFilterFunc g u v ts hb cur c = false) := by
  have hpass : ∀ (sd : StmtDict) (ts : List String) (hb : List Int) (cur : Bool),
      passStmt sd ts hb cur c = true → c ≤ sd.belief := by
    intro sd ts hb cur hp
    unfold passStmt at hp
    split at hp
    · exact absurd hp (by simp)
    · split at hp
      · exact absurd hp (by simp)
      · split at hp
        · exact absurd hp (by simp)
        · split at hp
          · exact absurd hp (by simp)
          · rename_i h4
            push_neg at h4
            exact h4 hc
  refine ⟨?_, hpass, ?_⟩
  · intro g startNode reverse nbrs n
    simp [beliefFilter, List.mem_filter, List.any_eq_true]
  · intro g u v ts hb cur hall
    simp only [edgeFilterFunc, List.any_eq_false]
    intro sd hsd
    by_contra hne
    have hp : passStmt sd ts hb cur c = true := by
      revert hne
      cases passStmt sd ts hb cur c <;> simp
    exact absurd (hall sd hsd) (not_lt.mpr (hpass sd ts hb cur hp))

/-- Closed witness for C1 at cutoff 1: the edge-case statement passes the
filter and its belief is at least the cutoff. -/
theorem c1_belief_cutoff_amended_witness :
    (1 : ℚ) ≤ edgeCaseStmt.belief :=
  (c1_belief_cutoff_amended 1 (by norm_num)).2.1 edgeCaseStmt [] [] false (by decide)

/-! ## Stable descending sort, modelling Python sorted(key, reverse=True) -/

/-- Insert x after every element strictly greater in key order: the embedding
of stability under Python's sorted with reverse=True (equal keys keep their
original relative order). -/
def insDescBy {α : Type} (lt : α → α → Bool) (x : α) : List α → List α
  | [] => [x]
  | y :: ys => if lt x y then y :: insDescBy lt x ys else x :: y :: ys

/-- Stable descending insertion sort: models Python sorted(key, reverse=True). -/
def sortDescBy {α : Type} (lt : α → α → Bool) : List α → List α
  | [] => []
  | x :: xs => insDescBy lt x (sortDescBy lt xs)

/-- Membership is preserved by the descending insert. -/
theorem mem_insDescBy {α : Type} (lt : α → α → Bool) (x : α) (l : List α) (a : α) :
    a ∈ insDescBy lt x l ↔ a = x ∨ a ∈ l := by
  induction l with
  | nil => simp [insDescBy]
  | cons y ys ih =>
    simp only [insDescBy]
    split <;> simp only [List.mem_cons, ih] <;> tauto

/-- The descending sort by a rational key is sorted: every later element has
a key no larger than every earlier one. -/
theorem sortDescBy_pairwise {α : Type} (k : α → ℚ) (l : List α) :
    (sortDescBy (fun a b => decide (k a < k b)) l).Pairwise (fun a b => k b ≤ k a) := by
  induction l with
  | nil => exact List.Pairwise.nil
  | cons x xs ih =>
    simp only [sortDescBy]
    generalize hs : sortDescBy (fun a b => decide (k a < k b)) xs = s at ih
    clear hs
    induction s with
    | nil => simp [insDescBy]
    | cons y ys ihy =>
      simp only [insDescBy]
      rcases List.pairwise_cons.mp ih with ⟨hy, hys⟩
      split
      · rename_i hlt
        rw [decide_eq_true_eq] at hlt
        refine List.pairwise_cons.mpr ⟨?_, ihy hys⟩
        intro z hz
        rcases (mem_insDescBy _ _ _ _).mp hz with rfl | hz
        · exact le_of_lt hlt
        · exact hy z hz
      · rename_i hnlt
        rw [decide_eq_true_eq] at hnlt
        push_neg at hnlt
        refine List.pairwise_cons.mpr ⟨?_, ih⟩
        intro z hz
        rcases List.mem_cons.mp hz with rfl | hz
        · exact hnlt
        · exact le_trans (hy z hz) hnlt

/-! ## Multi-interactor search (pathfinding.direct_multi_interactors) -/

/-- Embeds the generic edge-filter loop pathfinding._run_edge_filter: apply
the filter once per input node, stopping as soon as the neighbor set is
empty; the filter option is closed over in filterFunc. -/
def runEdgeFilter (startNodes : List StrNode) (neighborNodes : List StrNode)
    (g : Graph) (rev : Bool)
    (filterFunc : StrNode → List StrNode → Graph → Bool → List StrNode) :
    List StrNode :=
  match startNodes with
  | [] => neighborNodes
  | s :: rest =>
    if neighborNodes.isEmpty then neighborNodes
    else runEdgeFilter rest (filterFunc s neighborNodes g rev) g rev filterFunc

/-- Embeds max(sd["belief"] for sd in statements): the graph contract keeps
every edge's statement list non-empty, so the 0 default for an empty list is
never reached in served graphs. -/
def maxStmtBelief (stmts : List StmtDict) : ℚ :=
  (stmts.map fun sd => sd.belief).foldr max 0

/-- Embeds the _get_min_max_belief closure of direct_multi_interactors: the
minimum over the input nodes of the best statement belief on the edge to the
candidate neighbor. -/
def dmiMinMaxBelief (g : Graph) (inputNodes : List StrNode) (rev : Bool)
    (neighNode : StrNode) : ℚ :=
  let edges := inputNodes.map fun inp =>
    if rev then (neighNode, inp) else (inp, neighNode)
  ((edges.map fun e => maxStmtBelief (g.edgeStmts e.1 e.2)).min?).getD 0

/-- Strict lexicographic order on the (belief, name) sort key of
direct_multi_interactors. -/
def pairLtQS (a b : ℚ × String) : Bool :=
  decide (a.1 < b.1) || (decide (a.1 = b.1) && decide (a.2 < b.2))

/-- Embeds pathfinding.direct_multi_interactors: the empty-list check raises
ValueError inside the algorithm; neighbors are the strict intersection of
every input node's neighbor set, filtered (with short-circuiting) by
namespace, node blacklist, statement type, source, hash blacklist, belief
and curation, then sorted descending by (min over inputs of max edge belief,
node name) and truncated. -/
def directMultiInteractors (g : Graph) (nodes : List StrNode) (downstream : Bool)
    (allowedNs stmtTypes sourceFilterList : List String) (maxResults : Nat)
    (hashBlacklist : List Int) (nodeBlacklist : List StrNode)
    (beliefCutoff : ℚ) (curatedDbOnly : Bool) : Except String (List StrNode) :=
  let reverse := !downstream
  let neighLookup := fun n => if downstream then g.succs n else g.preds n
  match nodes with
  | [] => .error "Interactor list must contain at least one node"
  | first :: restNodes =>
    let allNodes := first :: restNodes
    let neighbors :=
      if restNodes.isEmpty then neighLookup first
      else
        let base := neighLookup first
        if base.isEmpty then base
        else restNodes.foldl
          (fun acc n => acc.filter fun x => decide (x ∈ neighLookup n)) base
    let neighbors :=
      if ¬allowedNs.isEmpty ∧ ¬neighbors.isEmpty then
        namespaceFilter neighbors g allowedNs
      else neighbors
    let neighbors :=
      if ¬nodeBlacklist.isEmpty ∧ ¬neighbors.isEmpty then
        neighbors.filter fun x => decide (x ∉ nodeBlacklist)
      else neighbors
    let neighbors :=
      if ¬stmtTypes.isEmpty ∧ ¬neighbors.isEmpty then
        runEdgeFilter allNodes neighbors g reverse
          fun s ns gg r => stmtTypesFilter s ns gg r stmtTypes
      else neighbors
    let neighbors :=
      if ¬sourceFilterList.isEmpty ∧ ¬neighbors.isEmpty then
        runEdgeFilter allNodes neighbors g reverse
          fun s ns gg r => sourceCountsFilter s ns gg r sourceFilterList
      else neighbors
    let neighbors :=
      if ¬hashBlacklist.isEmpty ∧ ¬neighbors.isEmpty then
        runEdgeFilter allNodes neighbors g reverse
          fun s ns gg r => hashFilter s ns gg r hashBlacklist
      else neighbors
    let neighbors :=
      if 0 < beliefCutoff ∧ ¬neighbors.isEmpty then
        runEdgeFilter allNodes neighbors g reverse
          fun s ns gg r => beliefFilter s ns gg r beliefCutoff
      else neighbors
    let neighbors :=
      if curatedDbOnly ∧ ¬neighbors.isEmpty then
        runEdgeFilter allNodes neighbors g reverse filterCurated
      else neighbors
    if ¬neighbors.isEmpty then
      .ok ((sortDescBy (fun a b =>
        pairLtQS (dmiMinMaxBelief g allNodes reverse a, a.name)
                 (dmiMinMaxBelief g allNodes reverse b, b.name)) neighbors).take maxResults)
    else .ok []

/-! ## Shared interactors (pathfinding.shared_interactors) -/

/-- Embeds pathfinding._sign_filter: raise unless both endpoints are signed
tuples and the sign is 0 or 1; for regulators require both endpoint signs to
equal the requested sign and keep only positively signed neighbors; otherwise
keep only neighbors whose sign equals the requested sign. -/
def signFilterPair (source : StrNode) (sNeigh : List StrNode) (target : StrNode)
    (tNeigh : List StrNode) (sign : Nat) (regulators : Bool) :
    Except String (List StrNode × List StrNode) :=
  if !(source.isTuple && target.isTuple) then
    .error "Input nodes are not signed"
  else if !(sign == 0 || sign == 1) then
    .error "Unknown sign"
  else if regulators then
    if source.signIs sign && target.signIs sign then
      .ok (sNeigh.filter fun s => s.signIs 0, tNeigh.filter fun t => t.signIs 0)
    else
      .error "Node sign does not match requested sign"
  else
    .ok (sNeigh.filter fun s => s.signIs sign, tNeigh.filter fun t => t.signIs sign)

/-- Embeds the _get_min_max_belief closure of shared_interactors: the lesser
of the best statement beliefs on the two connecting edges. -/
def getMinMaxBelief (g : Graph) (source target : StrNode) (regulators : Bool)
    (node : StrNode) : ℚ :=
  let sEdge := if regulators then (node, source) else (source, node)
  let tEdge := if regulators then (node, target) else (target, node)
  min (maxStmtBelief (g.edgeStmts sEdge.1 sEdge.2))
      (maxStmtBelief (g.edgeStmts tEdge.1 tEdge.2))

/-- Embeds the guarded filter cascade of pathfinding.shared_interactors for
one side.  In the Python each guarded stage updates s_neigh and t_neigh with
the same filter under one guard; the transcription factors the cascade per
side, which is the same computation. -/
def sharedInteractorsSide (g : Graph) (endp : StrNode) (regulators : Bool)
    (allowedNs stmtTypes sourceFilterList : List String)
    (hashBlacklist : List Int) (nodeBlacklist : List StrNode)
    (beliefCutoff : ℚ) (curatedDbOnly : Bool) (nbrs : List StrNode) :
    List StrNode :=
  let a1 := if !nodeBlacklist.isEmpty then
      nbrs.filter fun n => decide (n ∉ nodeBlacklist)
    else nbrs
  let a2 := if !allowedNs.isEmpty then namespaceFilter a1 g allowedNs else a1
  let a3 := if !stmtTypes.isEmpty then
      stmtTypesFilter endp a2 g regulators stmtTypes
    else a2
  let a4 := if curatedDbOnly then filterCurated endp a3 g regulators else a3
  let a5 := if !hashBlacklist.isEmpty then
      hashFilter endp a4 g regulators hashBlacklist
    else a4
  let a6 := if decide (0 < beliefCutoff) then
      beliefFilter endp a5 g regulators beliefCutoff
    else a5
  if !sourceFilterList.isEmpty then
    sourceCountsFilter endp a6 g regulators sourceFilterList
  else a6

/-- Embeds the body of pathfinding.shared_interactors after the optional sign
filter: the guarded filter cascade over both neighbor sets, their
intersection, the descending sort on the min-max belief key and the
truncation of the generated edge pairs. -/
def sharedInteractorsCore (g : Graph) (source target : StrNode)
    (allowedNs stmtTypes sourceFilterList : List String) (maxResults : Nat)
    (regulators : Bool) (hashBlacklist : List Int) (nodeBlacklist : List StrNode)
    (beliefCutoff : ℚ) (curatedDbOnly : Bool) (sNeigh tNeigh : List StrNode) :
    List (List StrNode × List StrNode) :=
  let sFiltered := sharedInteractorsSide g source regulators allowedNs
    stmtTypes sourceFilterList hashBlacklist nodeBlacklist beliefCutoff
    curatedDbOnly sNeigh
  let tFiltered := sharedInteractorsSide g target regulators allowedNs
    stmtTypes sourceFilterList hashBlacklist nodeBlacklist beliefCutoff
    curatedDbOnly tNeigh
  let intermediates := sFiltered.filter fun x => decide (x ∈ tFiltered)
  let key := getMinMaxBelief g source target regulators
  let intermSorted := sortDescBy (fun a b => decide (key a < key b)) intermediates
  let pathGen :=
    if regulators then intermSorted.map fun x => ([x, source], [x, target])
    else intermSorted.map fun x => ([source, x], [target, x])
  pathGen.take maxResults

/-- Embeds pathfinding.shared_interactors: neighbor sets from the graph
direction, optional sign filtering (which can raise), then the core
cascade. -/
def sharedInteractors (g : Graph) (source target : StrNode)
    (allowedNs stmtTypes sourceFilterList : List String) (maxResults : Nat)
    (regulators : Bool) (sign : Option Nat) (hashBlacklist : List Int)
    (nodeBlacklist : List StrNode) (beliefCutoff : ℚ) (curatedDbOnly : Bool) :
    Except String (List (List StrNode × List StrNode)) :=
  let neigh := fun n => if regulators then g.preds n else g.succs n
  match sign with
  | some sg =>
    match signFilterPair source (neigh source) target (neigh target) sg regulators with
    | .error e => .error e
    | .ok (s1, t1) =>
      .ok (sharedInteractorsCore g source target allowedNs stmtTypes
        sourceFilterList maxResults regulators hashBlacklist nodeBlacklist
        beliefCutoff curatedDbOnly s1 t1)
  | none =>
    .ok (sharedInteractorsCore g source target allowedNs stmtTypes
      sourceFilterList maxResults regulators hashBlacklist nodeBlacklist
      beliefCutoff curatedDbOnly (neigh source) (neigh target))

/-! ## Specification reading of the shared-interactors pipeline -/

/-- The statements of the edge connecting a side's endpoint and a candidate
neighbor, as the specification words it: upstream edges for a regulators
search, downstream edges otherwise. -/
def connStmts (g : Graph) (endpointNode nbr : StrNode) (regulators : Bool) :
    List StmtDict :=
  if regulators then g.edgeStmts nbr endpointNode else g.edgeStmts endpointNode nbr

/-- The filter configuration of a shared-interactors search, bundled. -/
structure SiOpts where
  allowedNs : List String
  stmtTypes : List String
  sourceFilterList : List String
  hashBlacklist : List Int
  nodeBlacklist : List StrNode
  beliefCutoff : ℚ
  curatedDbOnly : Bool

/-- The seven filter stages of the specification, in their fixed order. -/
inductive SiStage where
  | nodeBl
  | nsAllow
  | stmtTy
  | curatedOnly
  | hashBl
  | beliefCut
  | srcAllow
deriving DecidableEq, Repr

/-- The fixed stage order the specification prescribes. -/
def siStageOrder : List SiStage :=
  [.nodeBl, .nsAllow, .stmtTy, .curatedOnly, .hashBl, .beliefCut, .srcAllow]

/-- Whether a stage is active for the given configuration (an absent or empty
option disables its stage; the belief stage needs a positive cutoff). -/
def siStageActive (o : SiOpts) : SiStage → Bool
  | .nodeBl => !o.nodeBlacklist.isEmpty
  | .nsAllow => !o.allowedNs.isEmpty
  | .stmtTy => !o.stmtTypes.isEmpty
  | .curatedOnly => o.curatedDbOnly
  | .hashBl => !o.hashBlacklist.isEmpty
  | .beliefCut => decide (0 < o.beliefCutoff)
  | .srcAllow => !o.sourceFilterList.isEmpty

/-- Whether a candidate neighbor survives a stage, worded as the spec does:
a neighbor is dropped when it fails the stage's check over every statement of
its connecting edge. -/
def siStageKeeps (g : Graph) (endpointNode : StrNode) (regulators : Bool)
    (o : SiOpts) : SiStage → StrNode → Bool
  | .nodeBl, n => decide (n ∉ o.nodeBlacklist)
  | .nsAllow, n => decide ((g.nodeNs n).toLower ∈ o.allowedNs)
  | .stmtTy, n =>
    !((connStmts g endpointNode n regulators).all fun sd =>
        decide (sd.stmt_type.toLower ∉ o.stmtTypes))
  | .curatedOnly, n =>
    !((connStmts g endpointNode n regulators).all fun sd => !sd.curated)
  | .hashBl, n =>
    !((connStmts g endpointNode n regulators).all fun sd =>
        decide (sd.stmt_hash ∈ o.hashBlacklist))
  | .beliefCut, n =>
    !((connStmts g endpointNode n regulators).all fun sd =>
        decide (sd.belief ≤ o.beliefCutoff))
  | .srcAllow, n =>
    !((connStmts g endpointNode n regulators).all fun sd =>
        sd.source_counts.all fun s => decide (s.toLower ∉ o.sourceFilterList))

/-- One side's filtered neighbor set: the active stages applied in the fixed
order, independently of the other side. -/
def siFilterSide (g : Graph) (endpointNode : StrNode) (regulators : Bool)
    (o : SiOpts) (nbrs : List StrNode) : List StrNode :=
  siStageOrder.foldl
    (fun acc st =>
      if siStageActive o st then
        acc.filter fun n => siStageKeeps g endpointNode regulators o st n
      else acc) nbrs

/-- The ranking key the specification prescribes: the minimum over the two
sides of the best statement belief on the connecting edge. -/
def siSpecKey (g : Graph) (source target : StrNode) (regulators : Bool)
    (x : StrNode) : ℚ :=
  min (maxStmtBelief (connStmts g source x regulators))
      (maxStmtBelief (connStmts g target x regulators))

/-- The specification pipeline after sign handling: filter each side
independently, intersect, sort descending by the spec key with ties keeping
iteration order (the sort is stable), truncate to max_results. -/
def sharedInteractorsSpecCore (g : Graph) (source target : StrNode)
    (maxResults : Nat) (regulators : Bool) (o : SiOpts)
    (sNeigh tNeigh : List StrNode) : List StrNode :=
  let s := siFilterSide g source regulators o sNeigh
  let t := siFilterSide g target regulators o tNeigh
  let inter := s.filter fun x => decide (x ∈ t)
  (sortDescBy (fun a b =>
     decide (siSpecKey g source target regulators a <
             siSpecKey g source target regulators b)) inter).take maxResults

/-- The specification pipeline's surviving neighbors for a whole search. -/
def sharedInteractorsSpecNodes (g : Graph) (source target : StrNode)
    (maxResults : Nat) (regulators : Bool) (sign : Option Nat) (o : SiOpts) :
    Except String (List StrNode) :=
  let neigh := fun n => if regulators then g.preds n else g.succs n
  match sign with
  | some sg =>
    match signFilterPair source (neigh source) target (neigh target) sg regulators with
    | .error e => .error e
    | .ok (s1, t1) =>
      .ok (sharedInteractorsSpecCore g source target maxResults regulators o s1 t1)
  | none =>
    .ok (sharedInteractorsSpecCore g source target maxResults regulators o
      (neigh source) (neigh target))

/-- The specification result: each surviving neighbor paired into the two
result edges. -/
def sharedInteractorsSpec (g : Graph) (source target : StrNode)
    (maxResults : Nat) (regulators : Bool) (sign : Option Nat) (o : SiOpts) :
    Except String (List (List StrNode × List StrNode)) :=
  match sharedInteractorsSpecNodes g source target maxResults regulators sign o with
  | .error e => .error e
  | .ok xs =>
    .ok (xs.map fun x =>
      if regulators then ([x, source], [x, target]) else ([source, x], [target, x]))

/-- Two pointwise-equal boolean predicates filter identically. -/
theorem filterExt {α : Type} (p q : α → Bool) (h : ∀ a, p a = q a)
    (l : List α) : l.filter p = l.filter q := by
  have hpq : p = q := funext h
  rw [hpq]

/-- Existence of a passing element is the complement of all elements
failing. -/
theorem anyEqNotAllNot {α : Type} (p : α → Bool) (l : List α) :
    l.any p = !(l.all fun a => !(p a)) := by
  induction l with
  | nil => rfl
  | cons x xs ih =>
    simp [List.any_cons, List.all_cons, ih, Bool.not_and, Bool.not_not]

/-- The spec wording and the transcription name the same connecting edge. -/
theorem connStmts_eq_edgeOf (g : Graph) (a b : StrNode) (r : Bool) :
    connStmts g a b r = edgeOf g a b r := rfl

/-- The min-max belief key of the code is the spec's ranking key. -/
theorem getMinMaxBelief_eq_specKey (g : Graph) (source target : StrNode)
    (regulators : Bool) (x : StrNode) :
    getMinMaxBelief g source target regulators x =
      siSpecKey g source target regulators x := by
  cases regulators <;> rfl

/-- One side of the code's filter cascade computes exactly the spec's
fixed-order stage application for that side. -/
theorem sharedInteractorsSide_eq_filterSide (g : Graph) (endp : StrNode)
    (regulators : Bool) (o : SiOpts) (l : List StrNode) :
    sharedInteractorsSide g endp regulators o.allowedNs o.stmtTypes
      o.sourceFilterList o.hashBlacklist o.nodeBlacklist o.beliefCutoff
      o.curatedDbOnly l = siFilterSide g endp regulators o l := by
  have hstage : ∀ (endp : StrNode) (l : List StrNode),
      stmtTypesFilter endp l g regulators o.stmtTypes =
        l.filter fun n =>
          !((edgeOf g endp n regulators).all fun sd =>
            decide (sd.stmt_type.toLower ∉ o.stmtTypes)) := by
    intro endp l
    refine filterExt _ _ ?_ l
    intro n
    show (edgeOf g endp n regulators).any _ = _
    rw [anyEqNotAllNot]
    simp only [decide_not]
  have hcur : ∀ (endp : StrNode) (l : List StrNode),
      filterCurated endp l g regulators =
        l.filter fun n =>
          !((edgeOf g endp n regulators).all fun sd => !sd.curated) := by
    intro endp l
    refine filterExt _ _ ?_ l
    intro n
    show (edgeOf g endp n regulators).any _ = _
    rw [anyEqNotAllNot]
  have hhash : ∀ (endp : StrNode) (l : List StrNode),
      hashFilter endp l g regulators o.hashBlacklist =
        l.filter fun n =>
          !((edgeOf g endp n regulators).all fun sd =>
            decide (sd.stmt_hash ∈ o.hashBlacklist)) := by
    intro endp l
    refine filterExt _ _ ?_ l
    intro n
    show (edgeOf g endp n regulators).any _ = _
    rw [anyEqNotAllNot]
    simp only [decide_not, Bool.not_not]
  have hbel : ∀ (endp : StrNode) (l : List StrNode),
      beliefFilter endp l g regulators o.beliefCutoff =
        l.filter fun n =>
          !((edgeOf g endp n regulators).all fun sd =>
            decide (sd.belief ≤ o.beliefCutoff)) := by
    intro endp l
    refine filterExt _ _ ?_ l
    intro n
    show (edgeOf g endp n regulators).any _ = _
    rw [anyEqNotAllNot]
    have hfun : (fun (a : StmtDict) => !decide (o.beliefCutoff < a.belief)) =
        (fun (sd : StmtDict) => decide (sd.belief ≤ o.beliefCutoff)) := by
      funext a
      rw [← decide_not]
      exact decide_eq_decide.mpr not_lt
    rw [hfun]
  have hsrc : ∀ (endp : StrNode) (l : List StrNode),
      sourceCountsFilter endp l g regulators o.sourceFilterList =
        l.filter fun n =>
          !((edgeOf g endp n regulators).all fun sd =>
            sd.source_counts.all fun s =>
              decide (s.toLower ∉ o.sourceFilterList)) := by
    intro endp l
    refine filterExt _ _ ?_ l
    intro n
    show (edgeOf g endp n regulators).any _ = _
    rw [anyEqNotAllNot]
    have hfun : (fun (a : StmtDict) =>
        !(a.source_counts.any fun s => decide (s.toLower ∈ o.sourceFilterList))) =
        (fun (sd : StmtDict) => sd.source_counts.all fun s =>
          decide (s.toLower ∉ o.sourceFilterList)) := by
      funext a
      rw [anyEqNotAllNot, Bool.not_not]
      simp only [decide_not]
    rw [hfun]
  simp only [sharedInteractorsSide, siFilterSide, siStageOrder,
    List.foldl_cons, List.foldl_nil, siStageActive, siStageKeeps,
    namespaceFilter, connStmts_eq_edgeOf, hstage, hcur, hhash, hbel, hsrc,
    decide_not, Bool.not_not]

/-- The stage-by-stage agreement of the transcription with the spec wording,
side by side. -/
theorem sharedInteractorsCore_eq_spec (g : Graph) (source target : StrNode)
    (maxResults : Nat) (regulators : Bool) (o : SiOpts)
    (sNeigh tNeigh : List StrNode) :
    sharedInteractorsCore g source target o.allowedNs o.stmtTypes
      o.sourceFilterList maxResults regulators o.hashBlacklist o.nodeBlacklist
      o.beliefCutoff o.curatedDbOnly sNeigh tNeigh =
    (sharedInteractorsSpecCore g source target maxResults regulators o sNeigh
      tNeigh).map fun x =>
        if regulators then ([x, source], [x, target])
        else ([source, x], [target, x]) := by
  simp only [sharedInteractorsCore, sharedInteractorsSpecCore,
    sharedInteractorsSide_eq_filterSide, getMinMaxBelief_eq_specKey]
  cases regulators <;> simp [List.map_take]

/-- C8: the transcription of shared_interactors agrees, for every input, with
the specification pipeline (per-side filters in the fixed order node
blacklist, namespace, statement type, curated-only, hash blacklist, belief
cutoff, source allow-list; intersection; stable descending sort on the
min-of-best-beliefs key; truncation), and every successful result is sorted
descending by that key with at most max_results entries. -/
theorem c8_shared_interactors_pipeline (g : Graph) (source target : StrNode)
    (maxResults : Nat) (regulators : Bool) (sign : Option Nat) (o : SiOpts) :
    sharedInteractors g source target o.allowedNs o.stmtTypes
      o.sourceFilterList maxResults regulators sign o.hashBlacklist
      o.nodeBlacklist o.beliefCutoff o.curatedDbOnly =
      sharedInteractorsSpec g source target maxResults regulators sign o ∧
    (∀ out, sharedInteractorsSpecNodes g source target maxResults regulators
        sign o = .ok out →
      out.length ≤ maxResults ∧
      out.Pairwise (fun a b => siSpecKey g source target regulators b ≤
        siSpecKey g source target regulators a)) := by
  constructor
  · unfold sharedInteractors sharedInteractorsSpec sharedInteractorsSpecNodes
    cases sign with
    | none => simp [sharedInteractorsCore_eq_spec]
    | some sg =>
      cases hsf : signFilterPair source
          (if regulators then g.preds source else g.succs source) target
          (if regulators then g.preds target else g.succs target) sg regulators with
      | error e => simp [hsf]
      | ok p =>
        obtain ⟨s1, t1⟩ := p
        simp [hsf, sharedInteractorsCore_eq_spec]
  · intro out hout
    have hsorted : ∀ (sN tN : List StrNode),
        out = sharedInteractorsSpecCore g source target maxResults regulators o sN tN →
        out.length ≤ maxResults ∧
        out.Pairwise (fun a b => siSpecKey g source target regulators b ≤
          siSpecKey g source target regulators a) := by
      intro sN tN hdef
      subst hdef
      constructor
      · simpa [sharedInteractorsSpecCore] using
          (List.length_take_le maxResults _)
      · refine List.Pairwise.sublist (List.take_sublist _ _) ?_
        exact sortDescBy_pairwise (siSpecKey g source target regulators) _
    cases sign with
    | none =>
      simp only [sharedInteractorsSpecNodes, Except.ok.injEq] at hout
      exact hsorted _ _ hout.symm
    | some sg =>
      simp only [sharedInteractorsSpecNodes] at hout
      cases hsf : signFilterPair source
          (if regulators then g.preds source else g.succs source) target
          (if regulators then g.preds target else g.succs target) sg regulators with
      | error e =>
        rw [hsf] at hout
        exact absurd hout (by simp)
      | ok p =>
        obtain ⟨s1, t1⟩ := p
        rw [hsf] at hout
        simp only [Except.ok.injEq] at hout
        exact hsorted _ _ hout.symm

/-! ## Multi-interactor query translation (query.MultiInteractorsQuery) -/

/-- Embeds the fields of data_models.MultiInteractorsRestQuery read by the
translation; the optional lists default to empty, which Python treats like
None. -/
structure MultiInteractorsRestQuery where
  nodes : List StrNode
  downstream : Bool
  allowed_ns : List String := []
  stmt_types : List String := []
  source_filter : List String := []
  max_results : Nat := 50
  node_blacklist : List StrNode := []
  belief_cutoff : ℚ := 0
  curated_db_only : Bool := false
  timeout : ℚ := 30
deriving DecidableEq, Repr

/-- Embeds data_models.MultiInteractorsOptions, the validated option struct
handed to direct_multi_interactors; nodes is a plain list with no minimum
length constraint. -/
structure MultiInteractorsOptions where
  nodes : List StrNode
  downstream : Bool
  allowed_ns : List String := []
  stmt_types : List String := []
  source_filter : List String := []
  max_results : Nat := 50
  hash_blacklist : List Int := []
  node_blacklist : List StrNode := []
  belief_cutoff : ℚ := 0
  curated_db_only : Bool := false
deriving DecidableEq, Repr

/-- The option struct MultiInteractorsQuery._alg_options assembles: the rest
query's fields plus the curation-cache hash blacklist (the cache lookup is an
external collaborator, passed in here). -/
def miOptionsOf (q : MultiInteractorsRestQuery) (curationHashes : List Int) :
    MultiInteractorsOptions :=
  { nodes := q.nodes, downstream := q.downstream, allowed_ns := q.allowed_ns,
    stmt_types := q.stmt_types, source_filter := q.source_filter,
    max_results := q.max_results, hash_blacklist := curationHashes,
    node_blacklist := q.node_blacklist, belief_cutoff := q.belief_cutoff,
    curated_db_only := q.curated_db_only }

/-- Embeds query.MultiInteractorsQuery.run_options: it validates the options
model and returns it; no check of the node list happens here, and the model
accepts an empty list, so translation always succeeds. -/
def miRunOptions (q : MultiInteractorsRestQuery) (curationHashes : List Int) :
    Except String MultiInteractorsOptions :=
  .ok (miOptionsOf q curationHashes)

/-- Embeds search_api.IndraNetworkSearchAPI.multi_interactors_query handing
the translated options to the algorithm. -/
def runDirectMultiInteractors (g : Graph) (o : MultiInteractorsOptions) :
    Except String (List StrNode) :=
  directMultiInteractors g o.nodes o.downstream o.allowed_ns o.stmt_types
    o.source_filter o.max_results o.hash_blacklist o.node_blacklist
    o.belief_cutoff o.curated_db_only

/-- The rest query with an empty node list. -/
def emptyMiQuery : MultiInteractorsRestQuery :=
  { nodes := [], downstream := true }

/-- A graph with no nodes or edges, used by concrete evaluations. -/
def emptyGraph : Graph :=
  ⟨fun _ => [], fun _ => [], fun _ _ => [], fun _ => "", fun _ => "",
   fun _ => false, fun _ _ => 0⟩

/-- C4 counterexample: translating the empty-node multi-interactor query does
not raise — run_options returns the options unchallenged — and the error the
claim attributes to translation in fact arises as a ValueError inside
direct_multi_interactors when the algorithm is invoked. -/
theorem c4_translation_no_error_counterexample :
    miRunOptions emptyMiQuery [] = .ok (miOptionsOf emptyMiQuery []) ∧
    runDirectMultiInteractors emptyGraph (miOptionsOf emptyMiQuery []) =
      .error "Interactor list must contain at least one node" :=
  ⟨rfl, rfl⟩

/-- C4 amended: translation of a multi-interactor query never raises (the
options model accepts an empty node list); for an empty node list the request
is instead aborted by the ValueError direct_multi_interactors raises when the
search API invokes it, before any result is produced. -/
theorem c4_empty_nodes_amended :
    (∀ (q : MultiInteractorsRestQuery) (cur : List Int),
        miRunOptions q cur = .ok (miOptionsOf q cur)) ∧
    (∀ (q : MultiInteractorsRestQuery) (cur : List Int) (g : Graph),
        q.nodes = [] →
        runDirectMultiInteractors g (miOptionsOf q cur) =
          .error "Interactor list must contain at least one node") := by
  refine ⟨fun q cur => rfl, ?_⟩
  intro q cur g h
  simp [runDirectMultiInteractors, directMultiInteractors, miOptionsOf, h]

/-- C7: with a sign filter, translation gives the start node of a downstream
open search the positive sign regardless of the requested sign, and gives the
start node of an upstream open search the requested sign itself; with no sign
filter the node is returned unsigned; _get_source_node wires the direction
(source only means downstream, target only upstream). -/
theorem c7_open_sign_assignment (node : String) (s : Nat) (h : s = 0 ∨ s = 1) :
    getOpenSignedNode node false (some s) = .inr (node, some INT_PLUS) ∧
    getOpenSignedNode node true (some s) = .inr (node, some s) ∧
    (∀ r : Bool, getOpenSignedNode node r none = .inl node) ∧
    (∀ q : NetworkSearchQuery, q.source ≠ "" → q.target = "" →
        getSourceNode q = .ok (getOpenSignedNode q.source false q.sign, false)) ∧
    (∀ q : NetworkSearchQuery, q.source = "" → q.target ≠ "" →
        getSourceNode q = .ok (getOpenSignedNode q.target true q.sign, true)) := by
  refine ⟨rfl, ?_, fun r => rfl, ?_, ?_⟩
  · have hs : signsToIntSign s = some s := by
      rcases h with h | h <;> simp [signsToIntSign, h]
    simp [getOpenSignedNode, hs]
  · intro q hs ht
    simp [getSourceNode, hs, ht]
  · intro q hs ht
    simp [getSourceNode, hs, ht]

/-- Closed witness for C7 at a concrete request: a downstream open search
for BRCA1 with requested negative sign still starts at the positive node,
while the upstream search takes the negative sign directly. -/
theorem c7_open_sign_assignment_witness :
    getOpenSignedNode "BRCA1" false (some 1) = .inr ("BRCA1", some INT_PLUS) ∧
    getOpenSignedNode "BRCA1" true (some 1) = .inr ("BRCA1", some 1) :=
  ⟨(c7_open_sign_assignment "BRCA1" 1 (Or.inr rfl)).1,
   (c7_open_sign_assignment "BRCA1" 1 (Or.inr rfl)).2.1⟩

/-! ## Path aggregation (result_handler.PathResultManager._build_paths) -/

/-- Embeds data_models.Node: the fields the aggregation builds. -/
structure Node where
  name : String
  ns : String
  ident : String
  sign : Option Nat := none
deriving DecidableEq, Repr

/-- Embeds data_models.EdgeData as the aggregation uses it: the ordered node
pair and the surviving statements grouped by type; the url, belief and weight
fields play no role in the claims. -/
structure EdgeData where
  edge : Node × Node
  statements : List (String × List StmtDict)
deriving DecidableEq, Repr

/-- Embeds EdgeData.is_empty. -/
def EdgeData.isEmpty (ed : EdgeData) : Bool :=
  ed.statements.isEmpty

/-- Embeds data_models.Path: the node sequence and its parallel edge-data
sequence. -/
structure PathData where
  path : List Node
  edge_data : List EdgeData
deriving DecidableEq, Repr

/-- Embeds the inner edge loop of _build_paths: materialize each consecutive
edge; a missing or emptied edge aborts the whole path (fail closed). -/
def collectEdges (getEdge : StrNode → StrNode → Option EdgeData) :
    List (StrNode × StrNode) → Option (List EdgeData)
  | [] => some []
  | (s, o) :: rest =>
    match getEdge s o with
    | none => none
    | some ed =>
      if ed.isEmpty then none
      else (collectEdges getEdge rest).map fun l => ed :: l

/-- The node path _build_paths assembles: each edge's subject, then the last
edge's object. -/
def nodesOfEdges : List EdgeData → List Node
  | [] => []
  | [ed] => [ed.edge.1, ed.edge.2]
  | ed :: rest => ed.edge.1 :: nodesOfEdges rest

/-- Embeds one Path construction of _build_paths: pair consecutive nodes,
materialize every edge, drop the candidate when an edge is dropped or when no
edge was ever materialized (a path of fewer than two nodes). -/
def buildPathData (getEdge : StrNode → StrNode → Option EdgeData)
    (path : List StrNode) : Option PathData :=
  match collectEdges getEdge (path.zip path.tail) with
  | none => none
  | some [] => none
  | some (ed :: eds) => some ⟨nodesOfEdges (ed :: eds), ed :: eds⟩

/-- Embeds Python max(iterable, key=...): the first element of maximal key. -/
def argmaxFst (f : StrNode → ℚ) : List StrNode → Option StrNode
  | [] => none
  | x :: xs =>
    match argmaxFst f xs with
    | none => some x
    | some y => if f x < f y then some y else some x

/-- Embeds set.add on the culled-node set, the iteration order being the
insertion order. -/
def setAdd (culled : List StrNode) (n : StrNode) : List StrNode :=
  if n ∈ culled then culled else culled ++ [n]

/-- Embeds result_handler._get_cull_values: after every cull_best_node-th
accepted path (and only when the previous path has at least three nodes, so
an internal node exists), add the first highest-degree internal node of the
previous path to the culled set; always return the pair (culled nodes, empty
edge set).  The Python % with cull_best_node = 0 would raise; the validated
queries keep it at least 2. -/
def getCullValues (culled : List StrNode) (cullBestNode : Nat)
    (prevPath : List StrNode) (addedPaths : Nat) (g : Graph)
    (weight : Option String) : List StrNode × List StrNode :=
  if cullBestNode ≤ addedPaths ∧ addedPaths % cullBestNode = 0 ∧
      3 ≤ prevPath.length then
    match argmaxFst (fun n => g.degr n weight) ((prevPath.drop 1).dropLast) with
    | some best => (setAdd culled best, [])
    | none => (culled, [])
  else (culled, [])

/-- Embeds the weight-key selection at the top of _build_paths. -/
def chooseWeight (fo : FilterOptions) : Option String :=
  if fo.context_weighted then some "context_weight"
  else if fo.weighted.isSome then some "weight"
  else none

/-- Embeds Python truthiness of the timeout value: None and 0 both disable
the deadline check. -/
def timeoutTruthy : Option ℚ → Bool
  | none => false
  | some t => t != 0

/-- Embeds the guard of the target-path-length logic: a set, non-zero path
length and a non-overall-weighted search. -/
def pathLenActive (fo : FilterOptions) : Bool :=
  (match fo.path_length with
   | none => false
   | some l => l != 0) && !fo.overall_weighted

/-- One pull from the upstream generator: a plain next, or a send carrying
the culled-node set the generator receives. -/
inductive PullRec where
  | nextPull
  | sendPull (culled : List StrNode)
deriving DecidableEq, Repr

/-- The state _build_paths ends with: the paths grouped by node count in
insertion order, the count of accepted paths, the culled-node set, the
timed-out flag, and the trace of pulls issued upstream. -/
structure BuildOut where
  buckets : List (Nat × List PathData)
  pathsBuilt : Nat
  culled : List StrNode
  timedOut : Bool
  pulls : List PullRec
deriving DecidableEq, Repr

/-- Embeds self.paths[len(path)].append(path_data) with the KeyError
fallback: append to the node-count bucket, creating it at the end on first
use (dict insertion order). -/
def bucketAdd (buckets : List (Nat × List PathData)) (n : Nat) (p : PathData) :
    List (Nat × List PathData) :=
  if buckets.any fun kv => kv.1 == n then
    buckets.map fun kv => if kv.1 == n then (kv.1, kv.2 ++ [p]) else kv
  else buckets ++ [(n, [p])]

/-- Embeds the while loop of PathResultManager._build_paths.  The upstream
lazy generator is the candidate list; clock k is the elapsed time observed at
the k-th loop iteration; every iteration checks the deadline (only when the
timeout is truthy) and the max-paths cap, computes the send values when
culling is configured and a previous path exists (the culled set is mutated
even when the generator then turns out exhausted), pulls one candidate,
reverses it for reversed searches, applies the target-path-length skip/stop
logic, materializes the path and accepts it into its node-count bucket. -/
def buildPathsGo (getEdge : StrNode → StrNode → Option EdgeData) (g : Graph)
    (fo : FilterOptions) (reverse : Bool) (timeout : Option ℚ)
    (clock : Nat → ℚ) :
    List (List StrNode) → Nat → Nat → Option (List StrNode) → List StrNode →
    List (Nat × List PathData) → List PullRec → BuildOut
  | [], k, built, prev, culled, buckets, pulls =>
    if timeoutTruthy timeout && decide (timeout.getD 0 < clock k) then
      ⟨buckets, built, culled, true, pulls⟩
    else if fo.max_paths ≤ built then
      ⟨buckets, built, culled, false, pulls⟩
    else
      let culled2 :=
        if fo.cull_best_node.isSome && prev.isSome then
          (getCullValues culled (fo.cull_best_node.getD 0) (prev.getD [])
            built g (chooseWeight fo)).1
        else culled
      ⟨buckets, built, culled2, false, pulls⟩
  | p :: rest, k, built, prev, culled, buckets, pulls =>
    if timeoutTruthy timeout && decide (timeout.getD 0 < clock k) then
      ⟨buckets, built, culled, true, pulls⟩
    else if fo.max_paths ≤ built then
      ⟨buckets, built, culled, false, pulls⟩
    else
      let doSend := fo.cull_best_node.isSome && prev.isSome
      let culled2 :=
        if doSend then
          (getCullValues culled (fo.cull_best_node.getD 0) (prev.getD [])
            built g (chooseWeight fo)).1
        else culled
      let pulls2 := pulls ++ [if doSend then PullRec.sendPull culled2 else PullRec.nextPull]
      let path := if reverse then p.reverse else p
      if pathLenActive fo && decide (path.length < fo.path_length.getD 0) then
        buildPathsGo getEdge g fo reverse timeout clock rest (k + 1) built
          prev culled2 buckets pulls2
      else if pathLenActive fo && decide (fo.path_length.getD 0 < path.length) then
        ⟨buckets, built, culled2, false, pulls2⟩
      else
        match buildPathData getEdge path with
        | none =>
          buildPathsGo getEdge g fo reverse timeout clock rest (k + 1) built
            prev culled2 buckets pulls2
        | some pd =>
          buildPathsGo getEdge g fo reverse timeout clock rest (k + 1)
            (built + 1) (some path) culled2 (bucketAdd buckets path.length pd)
            pulls2

/-- Embeds a whole _build_paths run from the initial state. -/
def buildPaths (getEdge : StrNode → StrNode → Option EdgeData) (g : Graph)
    (fo : FilterOptions) (reverse : Bool) (timeout : Option ℚ)
    (clock : Nat → ℚ) (cands : List (List StrNode)) : BuildOut :=
  buildPathsGo getEdge g fo reverse timeout clock cands 0 0 none [] [] []

/-- With a falsy timeout the deadline branch is unreachable, so a run never
reports timed-out, whatever the clock or candidates. -/
theorem buildPathsGo_no_timeout (getEdge : StrNode → StrNode → Option EdgeData)
    (g : Graph) (fo : FilterOptions) (reverse : Bool) (timeout : Option ℚ)
    (clock : Nat → ℚ) (h : timeoutTruthy timeout = false) :
    ∀ (cands : List (List StrNode)) (k built : Nat)
      (prev : Option (List StrNode)) (culled : List StrNode)
      (buckets : List (Nat × List PathData)) (pulls : List PullRec),
      (buildPathsGo getEdge g fo reverse timeout clock cands k built prev
        culled buckets pulls).timedOut = false := by
  intro cands
  induction cands with
  | nil =>
    intro k built prev culled buckets pulls
    simp only [buildPathsGo, h, Bool.false_and, Bool.false_eq_true, if_false]
    split <;> rfl
  | cons p rest ih =>
    intro k built prev culled buckets pulls
    simp only [buildPathsGo, h, Bool.false_and, Bool.false_eq_true, if_false]
    repeat' split
    all_goals first
      | rfl
      | exact ih _ _ _ _ _ _

/-- Concrete nodes and edge used by the closed evaluations below. -/
def nodeA : Node := ⟨"A", "HGNC", "1", none⟩

/-- Second concrete node. -/
def nodeB : Node := ⟨"B", "HGNC", "2", none⟩

/-- A statement supporting the edge A → B. -/
def abStmt : StmtDict := ⟨"Activation", 1, true, 5, ["reach"]⟩

/-- The materialized edge data for A → B. -/
def abEdgeData : EdgeData := ⟨(nodeA, nodeB), [("Activation", [abStmt])]⟩

/-- A concrete edge materializer admitting only the A → B edge. -/
def exGetEdge : StrNode → StrNode → Option EdgeData := fun s o =>
  if s = StrNode.plain "A" ∧ o = StrNode.plain "B" then some abEdgeData else none

/-- The concrete run behind the C2 counterexample: configured timeout 0, a
non-empty candidate sequence, and a clock far beyond any deadline. -/
def c2run : BuildOut :=
  buildPaths exGetEdge emptyGraph {} false (some 0) (fun _ => 1000)
    [[StrNode.plain "A", StrNode.plain "B"]]

/-- C2 counterexample: with configured timeout 0 and a non-empty candidate
sequence the aggregation is not marked timed-out and consumes the whole
sequence (one path built), because a zero timeout is falsy and disables the
deadline check entirely. -/
theorem c2_timeout_zero_counterexample :
    c2run.timedOut = false ∧ c2run.pathsBuilt = 1 := by
  constructor <;> decide

/-- C2 amended: a configured timeout of 0 (like None) is falsy and disables
the deadline, so the run is never marked timed-out and partial results are
whatever the full consumption yields; for a positive timeout T the check runs
before every pull (the first included) and stops with the timed-out flag and
the partial state as soon as the elapsed clock strictly exceeds T — in
particular a clock already past T at the first iteration yields a timed-out
result with no pulls and no paths, without raising. -/
theorem c2_timeout_amended :
    (∀ (getEdge : StrNode → StrNode → Option EdgeData) (g : Graph)
        (fo : FilterOptions) (reverse : Bool) (clock : Nat → ℚ)
        (cands : List (List StrNode)),
        (buildPaths getEdge g fo reverse (some 0) clock cands).timedOut = false) ∧
    (∀ (getEdge : StrNode → StrNode → Option EdgeData) (g : Graph)
        (fo : FilterOptions) (reverse : Bool) (clock : Nat → ℚ)
        (cands : List (List StrNode)) (T : ℚ), 0 < T → T < clock 0 →
        buildPaths getEdge g fo reverse (some T) clock cands =
          ⟨[], 0, [], true, []⟩) := by
  constructor
  · intro getEdge g fo reverse clock cands
    exact buildPathsGo_no_timeout getEdge g fo reverse (some 0) clock rfl
      cands 0 0 none [] [] []
  · intro getEdge g fo reverse clock cands T hT hclock
    have h1 : timeoutTruthy (some T) = true := by
      simp [timeoutTruthy, bne]
      exact ne_of_gt hT
    cases cands with
    | nil =>
      simp [buildPaths, buildPathsGo, h1, hclock]
    | cons p rest =>
      simp [buildPaths, buildPathsGo, h1, hclock]

/-- Keys occurring after a bucket insertion: the inserted key or an existing
one. -/
theorem bucketAdd_keys (buckets : List (Nat × List PathData)) (n : Nat)
    (p : PathData) :
    ∀ kv ∈ bucketAdd buckets n p, kv.1 = n ∨ ∃ kv' ∈ buckets, kv.1 = kv'.1 := by
  intro kv hkv
  unfold bucketAdd at hkv
  split at hkv
  · rcases List.mem_map.mp hkv with ⟨kv', hkv', hmap⟩
    right
    refine ⟨kv', hkv', ?_⟩
    subst hmap
    split <;> rfl
  · rcases List.mem_append.mp hkv with h | h
    · exact Or.inr ⟨kv, h, rfl⟩
    · left
      simp only [List.mem_singleton] at h
      subst h
      rfl

/-- With an active target path length every accepted path has exactly that
node count, so every bucket key equals the target. -/
theorem buildPathsGo_buckets_len (getEdge : StrNode → StrNode → Option EdgeData)
    (g : Graph) (fo : FilterOptions) (reverse : Bool) (timeout : Option ℚ)
    (clock : Nat → ℚ) (L : Nat) (hL : fo.path_length = some L)
    (hact : pathLenActive fo = true) :
    ∀ (cands : List (List StrNode)) (k built : Nat)
      (prev : Option (List StrNode)) (culled : List StrNode)
      (buckets : List (Nat × List PathData)) (pulls : List PullRec),
      (∀ kv ∈ buckets, kv.1 = L) →
      ∀ kv ∈ (buildPathsGo getEdge g fo reverse timeout clock cands k built
        prev culled buckets pulls).buckets, kv.1 = L := by
  intro cands
  induction cands with
  | nil =>
    intro k built prev culled buckets pulls hb
    simp only [buildPathsGo]
    split
    · exact hb
    · split
      · exact hb
      · exact hb
  | cons p rest ih =>
    intro k built prev culled buckets pulls hb
    by_cases h1 : (timeoutTruthy timeout && decide (timeout.getD 0 < clock k)) = true
    · simp only [buildPathsGo, h1, if_true]
      exact hb
    · by_cases h2 : fo.max_paths ≤ built
      · simp [buildPathsGo, h1, h2]
        exact fun a b hab => hb (a, b) hab
      · by_cases h3 : (pathLenActive fo &&
            decide ((if reverse then p.reverse else p).length <
              fo.path_length.getD 0)) = true
        · simp [buildPathsGo, h1, h2, h3]
          exact fun a b hab => ih _ _ _ _ _ _ hb (a, b) hab
        · by_cases h4 : (pathLenActive fo &&
              decide (fo.path_length.getD 0 <
                (if reverse then p.reverse else p).length)) = true
          · simp [buildPathsGo, h1, h2, h3, h4]
            exact fun a b hab => hb (a, b) hab
          · have hlen : (if reverse then p.reverse else p).length = L := by
              rw [Bool.and_eq_true, decide_eq_true_eq] at h3 h4
              push_neg at h3 h4
              have ha1 := h3 hact
              have ha2 := h4 hact
              rw [hL] at ha1 ha2
              simp only [Option.getD_some] at ha1 ha2
              omega
            cases hbd : buildPathData getEdge (if reverse then p.reverse else p) with
            | none =>
              simp [buildPathsGo, h1, h2, h3, h4, hbd]
              exact fun a b hab => ih _ _ _ _ _ _ hb (a, b) hab
            | some pd =>
              simp [buildPathsGo, h1, h2, h3, h4, hbd]
              intro a b hab
              refine ih _ _ _ _ _ _ ?_ (a, b) hab
              intro kv hkv
              rcases bucketAdd_keys _ _ _ kv hkv with h | ⟨kv', hkv', heq⟩
              · rw [h, hlen]
              · rw [heq]
                exact hb kv' hkv'

/-- One-step unfolding of the loop on a non-empty candidate list. -/
theorem buildPathsGo_cons (getEdge : StrNode → StrNode → Option EdgeData)
    (g : Graph) (fo : FilterOptions) (reverse : Bool) (timeout : Option ℚ)
    (clock : Nat → ℚ) (p : List StrNode) (rest : List (List StrNode))
    (k built : Nat) (prev : Option (List StrNode)) (culled : List StrNode)
    (buckets : List (Nat × List PathData)) (pulls : List PullRec) :
    buildPathsGo getEdge g fo reverse timeout clock (p :: rest) k built prev
      culled buckets pulls =
    if timeoutTruthy timeout && decide (timeout.getD 0 < clock k) then
      ⟨buckets, built, culled, true, pulls⟩
    else if fo.max_paths ≤ built then
      ⟨buckets, built, culled, false, pulls⟩
    else
      let doSend := fo.cull_best_node.isSome && prev.isSome
      let culled2 :=
        if doSend then
          (getCullValues culled (fo.cull_best_node.getD 0) (prev.getD [])
            built g (chooseWeight fo)).1
        else culled
      let pulls2 := pulls ++ [if doSend then PullRec.sendPull culled2 else PullRec.nextPull]
      let path := if reverse then p.reverse else p
      if pathLenActive fo && decide (path.length < fo.path_length.getD 0) then
        buildPathsGo getEdge g fo reverse timeout clock rest (k + 1) built
          prev culled2 buckets pulls2
      else if pathLenActive fo && decide (fo.path_length.getD 0 < path.length) then
        ⟨buckets, built, culled2, false, pulls2⟩
      else
        match buildPathData getEdge path with
        | none =>
          buildPathsGo getEdge g fo reverse timeout clock rest (k + 1) built
            prev culled2 buckets pulls2
        | some pd =>
          buildPathsGo getEdge g fo reverse timeout clock rest (k + 1)
            (built + 1) (some path) culled2 (bucketAdd buckets path.length pd)
            pulls2 := rfl

/-- With an active target path length the run stops at the first candidate
longer than the target: everything after it is never pulled. -/
theorem buildPathsGo_stop_at_long (getEdge : StrNode → StrNode → Option EdgeData)
    (g : Graph) (fo : FilterOptions) (reverse : Bool) (timeout : Option ℚ)
    (clock : Nat → ℚ) (L : Nat) (hL : fo.path_length = some L)
    (hact : pathLenActive fo = true) (y : List StrNode) (hy : L < y.length) :
    ∀ (xs zs : List (List StrNode)) (k built : Nat)
      (prev : Option (List StrNode)) (culled : List StrNode)
      (buckets : List (Nat × List PathData)) (pulls : List PullRec),
      buildPathsGo getEdge g fo reverse timeout clock (xs ++ y :: zs) k built
        prev culled buckets pulls =
      buildPathsGo getEdge g fo reverse timeout clock (xs ++ [y]) k built
        prev culled buckets pulls := by
  have hylen : (if reverse then y.reverse else y).length = y.length := by
    cases reverse <;> simp
  have hshort : (pathLenActive fo &&
      decide ((if reverse then y.reverse else y).length <
        fo.path_length.getD 0)) = false := by
    rw [hact, hL]
    simp only [Bool.true_and, Option.getD_some, decide_eq_false_iff_not,
      not_lt, hylen]
    omega
  have hlong : (pathLenActive fo &&
      decide (fo.path_length.getD 0 <
        (if reverse then y.reverse else y).length)) = true := by
    rw [hact, hL]
    simp only [Bool.true_and, Option.getD_some, decide_eq_true_eq, hylen]
    exact hy
  intro xs
  induction xs with
  | nil =>
    intro zs k built prev culled buckets pulls
    simp only [List.nil_append]
    rw [buildPathsGo_cons, buildPathsGo_cons]
    by_cases h1 : (timeoutTruthy timeout && decide (timeout.getD 0 < clock k)) = true
    · rw [if_pos h1, if_pos h1]
    · rw [if_neg h1, if_neg h1]
      by_cases h2 : fo.max_paths ≤ built
      · rw [if_pos h2, if_pos h2]
      · rw [if_neg h2, if_neg h2]
        dsimp only
        rw [hshort, hlong]
        simp only [Bool.false_eq_true, if_false, if_true]
  | cons x xs' ih =>
    intro zs k built prev culled buckets pulls
    simp only [List.cons_append]
    rw [buildPathsGo_cons, buildPathsGo_cons]
    by_cases h1 : (timeoutTruthy timeout && decide (timeout.getD 0 < clock k)) = true
    · rw [if_pos h1, if_pos h1]
    · rw [if_neg h1, if_neg h1]
      by_cases h2 : fo.max_paths ≤ built
      · rw [if_pos h2, if_pos h2]
      · rw [if_neg h2, if_neg h2]
        dsimp only
        by_cases h3 : (pathLenActive fo &&
            decide ((if reverse then x.reverse else x).length <
              fo.path_length.getD 0)) = true
        · rw [if_pos h3, if_pos h3]
          exact ih _ _ _ _ _ _ _
        · rw [if_neg h3, if_neg h3]
          by_cases h4 : (pathLenActive fo &&
              decide (fo.path_length.getD 0 <
                (if reverse then x.reverse else x).length)) = true
          · rw [if_pos h4, if_pos h4]
          · rw [if_neg h4, if_neg h4]
            cases hbd : buildPathData getEdge (if reverse then x.reverse else x) with
            | none =>
              simp only [hbd]
              exact ih _ _ _ _ _ _ _
            | some pd =>
              simp only [hbd]
              exact ih _ _ _ _ _ _ _

/-- C5 amended: the skip-shorter / stop-at-longer logic runs only when a
target path length is set AND the search is not overall weighted; under those
conditions every bucket of the result carries exactly the target node count,
and the whole loop terminates at the first candidate longer than the target
(later candidates are never pulled).  An overall-weighted run ignores the
target length entirely. -/
theorem c5_path_length_amended :
    (∀ (getEdge : StrNode → StrNode → Option EdgeData) (g : Graph)
        (fo : FilterOptions) (reverse : Bool) (timeout : Option ℚ)
        (clock : Nat → ℚ) (cands : List (List StrNode)) (L : Nat),
        fo.path_length = some L → pathLenActive fo = true →
        ∀ kv ∈ (buildPaths getEdge g fo reverse timeout clock cands).buckets,
          kv.1 = L) ∧
    (∀ (getEdge : StrNode → StrNode → Option EdgeData) (g : Graph)
        (fo : FilterOptions) (reverse : Bool) (timeout : Option ℚ)
        (clock : Nat → ℚ) (xs zs : List (List StrNode)) (y : List StrNode)
        (L : Nat),
        fo.path_length = some L → pathLenActive fo = true → L < y.length →
        buildPaths getEdge g fo reverse timeout clock (xs ++ y :: zs) =
          buildPaths getEdge g fo reverse timeout clock (xs ++ [y])) := by
  constructor
  · intro getEdge g fo reverse timeout clock cands L hL hact
    exact buildPathsGo_buckets_len getEdge g fo reverse timeout clock L hL hact
      cands 0 0 none [] [] [] (by intro kv hkv; exact absurd hkv (by simp))
  · intro getEdge g fo reverse timeout clock xs zs y L hL hact hy
    exact buildPathsGo_stop_at_long getEdge g fo reverse timeout clock L hL
      hact y hy xs zs 0 0 none [] [] []

/-- The filter options of an overall-weighted search with target path
length 3. -/
def c5fo : FilterOptions :=
  { path_length := some 3, overall_weighted := true }

/-- The concrete run behind the C5 counterexample. -/
def c5run : BuildOut :=
  buildPaths exGetEdge emptyGraph c5fo false none (fun _ => 0)
    [[StrNode.plain "A", StrNode.plain "B"]]

/-- C5 counterexample: with target path length 3 set but the search overall
weighted, the two-node candidate is not skipped — it is accepted into the
bucket of node count 2 — contradicting the claim that every candidate with
fewer nodes than the target is skipped. -/
theorem c5_shorter_not_skipped_counterexample :
    c5run.pathsBuilt = 1 ∧ c5run.buckets.map Prod.fst = [2] := by
  constructor <;> decide

/-- The set never loses elements on add. -/
theorem setAdd_subset (culled : List StrNode) (n : StrNode) :
    culled ⊆ setAdd culled n := by
  unfold setAdd
  split
  · exact fun x hx => hx
  · exact List.subset_append_left _ _

/-- The set grows by at most one element on add. -/
theorem setAdd_length (culled : List StrNode) (n : StrNode) :
    (setAdd culled n).length ≤ culled.length + 1 := by
  unfold setAdd
  split <;> simp

/-- The cull computation never removes a culled node. -/
theorem getCullValues_mono (culled : List StrNode) (K : Nat)
    (prevPath : List StrNode) (added : Nat) (g : Graph) (w : Option String) :
    culled ⊆ (getCullValues culled K prevPath added g w).1 := by
  unfold getCullValues
  split
  · split
    · exact setAdd_subset _ _
    · exact fun x hx => hx
  · exact fun x hx => hx

/-- The cull computation adds at most one node per pull. -/
theorem getCullValues_len (culled : List StrNode) (K : Nat)
    (prevPath : List StrNode) (added : Nat) (g : Graph) (w : Option String) :
    (getCullValues culled K prevPath added g w).1.length ≤ culled.length + 1 := by
  unfold getCullValues
  split
  · split
    · exact setAdd_length _ _
    · exact Nat.le_succ _
  · exact Nat.le_succ _

/-- The second slot of the send values is always the empty edge set. -/
theorem getCullValues_snd (culled : List StrNode) (K : Nat)
    (prevPath : List StrNode) (added : Nat) (g : Graph) (w : Option String) :
    (getCullValues culled K prevPath added g w).2 = [] := by
  unfold getCullValues
  split
  · split <;> rfl
  · rfl

/-- A first-max only lacks on the empty list. -/
theorem argmaxFst_eq_none (f : StrNode → ℚ) :
    ∀ l : List StrNode, argmaxFst f l = none → l = [] := by
  intro l h
  cases l with
  | nil => rfl
  | cons b bs =>
    exfalso
    cases h' : argmaxFst f bs with
    | none =>
      simp only [argmaxFst, h'] at h
      exact Option.noConfusion h
    | some m =>
      simp only [argmaxFst, h'] at h
      by_cases hlt : f b < f m
      · rw [if_pos hlt] at h
        exact Option.noConfusion h
      · rw [if_neg hlt] at h
        exact Option.noConfusion h

/-- The first-max is a member and a maximizer. -/
theorem argmaxFst_spec (f : StrNode → ℚ) (l : List StrNode) (x : StrNode)
    (h : argmaxFst f l = some x) : x ∈ l ∧ ∀ y ∈ l, f y ≤ f x := by
  induction l generalizing x with
  | nil => cases h
  | cons a as ih =>
    cases has : argmaxFst f as with
    | none =>
      have hnil := argmaxFst_eq_none f as has
      subst hnil
      simp only [argmaxFst] at h
      injection h with h
      subst h
      refine ⟨List.mem_cons_self _ _, ?_⟩
      intro y hy
      rcases List.mem_cons.mp hy with rfl | hy
      · exact le_refl _
      · exact absurd hy (by simp)
    | some m =>
      obtain ⟨hm, hmax⟩ := ih m has
      simp only [argmaxFst, has] at h
      by_cases hlt : f a < f m
      · rw [if_pos hlt] at h
        injection h with h
        subst h
        refine ⟨List.mem_cons_of_mem _ hm, ?_⟩
        intro y hy
        rcases List.mem_cons.mp hy with rfl | hy
        · exact le_of_lt hlt
        · exact hmax y hy
      · rw [if_neg hlt] at h
        push_neg at hlt
        injection h with h
        subst h
        refine ⟨List.mem_cons_self _ _, ?_⟩
        intro y hy
        rcases List.mem_cons.mp hy with rfl | hy
        · exact le_refl _
        · exact le_trans (hmax y hy) hlt

/-- The updated culled set of one iteration contains the previous one. -/
theorem culledUpdate_mono (c : Bool) (culled : List StrNode) (K : Nat)
    (pp : List StrNode) (b : Nat) (g : Graph) (w : Option String) :
    culled ⊆ (if c then (getCullValues culled K pp b g w).1 else culled) := by
  split
  · exact getCullValues_mono _ _ _ _ _ _
  · exact fun x hx => hx

/-- Over a whole run the culled set only accumulates. -/
theorem buildPathsGo_culled_mono (getEdge : StrNode → StrNode → Option EdgeData)
    (g : Graph) (fo : FilterOptions) (reverse : Bool) (timeout : Option ℚ)
    (clock : Nat → ℚ) :
    ∀ (cands : List (List StrNode)) (k built : Nat)
      (prev : Option (List StrNode)) (culled : List StrNode)
      (buckets : List (Nat × List PathData)) (pulls : List PullRec),
      culled ⊆ (buildPathsGo getEdge g fo reverse timeout clock cands k built
        prev culled buckets pulls).culled := by
  intro cands
  induction cands with
  | nil =>
    intro k built prev culled buckets pulls
    simp only [buildPathsGo]
    by_cases h1 : (timeoutTruthy timeout && decide (timeout.getD 0 < clock k)) = true
    · rw [if_pos h1]
      exact fun x hx => hx
    · rw [if_neg h1]
      by_cases h2 : fo.max_paths ≤ built
      · rw [if_pos h2]
        exact fun x hx => hx
      · rw [if_neg h2]
        exact culledUpdate_mono _ _ _ _ _ _ _
  | cons p rest ih =>
    intro k built prev culled buckets pulls
    rw [buildPathsGo_cons]
    have hup := culledUpdate_mono (fo.cull_best_node.isSome && prev.isSome)
      culled (fo.cull_best_node.getD 0) (prev.getD []) built g (chooseWeight fo)
    by_cases h1 : (timeoutTruthy timeout && decide (timeout.getD 0 < clock k)) = true
    · rw [if_pos h1]
      exact fun x hx => hx
    · rw [if_neg h1]
      by_cases h2 : fo.max_paths ≤ built
      · rw [if_pos h2]
        exact fun x hx => hx
      · rw [if_neg h2]
        dsimp only
        by_cases h3 : (pathLenActive fo &&
            decide ((if reverse then p.reverse else p).length <
              fo.path_length.getD 0)) = true
        · rw [if_pos h3]
          exact List.Subset.trans hup (ih _ _ _ _ _ _)
        · rw [if_neg h3]
          by_cases h4 : (pathLenActive fo &&
              decide (fo.path_length.getD 0 <
                (if reverse then p.reverse else p).length)) = true
          · rw [if_pos h4]
            exact hup
          · rw [if_neg h4]
            cases hbd : buildPathData getEdge (if reverse then p.reverse else p) with
            | none =>
              simp only [hbd]
              exact List.Subset.trans hup (ih _ _ _ _ _ _)
            | some pd =>
              simp only [hbd]
              exact List.Subset.trans hup (ih _ _ _ _ _ _)

/-- Every culled set a send hands upstream is contained in the run's final
culled set: the excluded-node set accumulates across the whole run. -/
theorem buildPathsGo_sent_subset (getEdge : StrNode → StrNode → Option EdgeData)
    (g : Graph) (fo : FilterOptions) (reverse : Bool) (timeout : Option ℚ)
    (clock : Nat → ℚ) :
    ∀ (cands : List (List StrNode)) (k built : Nat)
      (prev : Option (List StrNode)) (culled : List StrNode)
      (buckets : List (Nat × List PathData)) (pulls : List PullRec),
      (∀ c, PullRec.sendPull c ∈ pulls → c ⊆ culled) →
      ∀ c, PullRec.sendPull c ∈ (buildPathsGo getEdge g fo reverse timeout
        clock cands k built prev culled buckets pulls).pulls →
        c ⊆ (buildPathsGo getEdge g fo reverse timeout clock cands k built
          prev culled buckets pulls).culled := by
  intro cands
  induction cands with
  | nil =>
    intro k built prev culled buckets pulls hsent c hc
    simp only [buildPathsGo] at hc ⊢
    by_cases h1 : (timeoutTruthy timeout && decide (timeout.getD 0 < clock k)) = true
    · rw [if_pos h1] at hc ⊢
      exact hsent c hc
    · rw [if_neg h1] at hc ⊢
      by_cases h2 : fo.max_paths ≤ built
      · rw [if_pos h2] at hc ⊢
        exact hsent c hc
      · rw [if_neg h2] at hc ⊢
        exact List.Subset.trans (hsent c hc)
          (culledUpdate_mono _ _ _ _ _ _ _)
  | cons p rest ih =>
    intro k built prev culled buckets pulls hsent c hc
    rw [buildPathsGo_cons] at hc ⊢
    have hup := culledUpdate_mono (fo.cull_best_node.isSome && prev.isSome)
      culled (fo.cull_best_node.getD 0) (prev.getD []) built g (chooseWeight fo)
    have hsent2 : ∀ c', PullRec.sendPull c' ∈ pulls ++
        [if (fo.cull_best_node.isSome && prev.isSome) then
          PullRec.sendPull (if (fo.cull_best_node.isSome && prev.isSome) then
            (getCullValues culled (fo.cull_best_node.getD 0) (prev.getD [])
              built g (chooseWeight fo)).1 else culled)
        else PullRec.nextPull] →
        c' ⊆ (if (fo.cull_best_node.isSome && prev.isSome) then
          (getCullValues culled (fo.cull_best_node.getD 0) (prev.getD [])
            built g (chooseWeight fo)).1 else culled) := by
      intro c' hc'
      rcases List.mem_append.mp hc' with hold | hnew
      · exact List.Subset.trans (hsent c' hold) hup
      · simp only [List.mem_singleton] at hnew
        by_cases hds : (fo.cull_best_node.isSome && prev.isSome) = true
        · rw [if_pos hds] at hnew
          injection hnew.symm with h
          subst h
          exact fun x hx => hx
        · rw [if_neg hds] at hnew
          exact PullRec.noConfusion hnew
    by_cases h1 : (timeoutTruthy timeout && decide (timeout.getD 0 < clock k)) = true
    · rw [if_pos h1] at hc ⊢
      exact hsent c hc
    · rw [if_neg h1] at hc ⊢
      by_cases h2 : fo.max_paths ≤ built
      · rw [if_pos h2] at hc ⊢
        exact hsent c hc
      · rw [if_neg h2] at hc ⊢
        dsimp only at hc ⊢
        by_cases h3 : (pathLenActive fo &&
            decide ((if reverse then p.reverse else p).length <
              fo.path_length.getD 0)) = true
        · rw [if_pos h3] at hc ⊢
          exact ih _ _ _ _ _ _ hsent2 c hc
        · rw [if_neg h3] at hc ⊢
          by_cases h4 : (pathLenActive fo &&
              decide (fo.path_length.getD 0 <
                (if reverse then p.reverse else p).length)) = true
          · rw [if_pos h4] at hc ⊢
            exact hsent2 c hc
          · rw [if_neg h4] at hc ⊢
            cases hbd : buildPathData getEdge (if reverse then p.reverse else p) with
            | none =>
              simp only [hbd] at hc ⊢
              exact ih _ _ _ _ _ _ hsent2 c hc
            | some pd =>
              simp only [hbd] at hc ⊢
              exact ih _ _ _ _ _ _ hsent2 c hc

/-- C6 amended: the send values after a pull carry (culled set, empty set);
the culled set never loses nodes and gains at most one per pull; after the
cull-best-node-th accepted path the gained node is the first
highest-(weighted-)degree internal node of the most recent accepted path,
provided that path has at least three nodes (a shorter path, or an argmax
already culled, adds nothing); outside the trigger nothing is added; the
selected node is a true degree maximizer of the internal nodes; and every
culled set sent upstream persists into the run's final culled set. -/
theorem c6_cull_amended :
    (∀ (culled : List StrNode) (K : Nat) (prevPath : List StrNode)
        (added : Nat) (g : Graph) (w : Option String),
        (getCullValues culled K prevPath added g w).2 = [] ∧
        culled ⊆ (getCullValues culled K prevPath added g w).1 ∧
        (getCullValues culled K prevPath added g w).1.length ≤
          culled.length + 1) ∧
    (∀ (culled : List StrNode) (K : Nat) (prevPath : List StrNode)
        (added : Nat) (g : Graph) (w : Option String) (best : StrNode),
        K ≤ added → added % K = 0 → 3 ≤ prevPath.length →
        argmaxFst (fun n => g.degr n w) ((prevPath.drop 1).dropLast) = some best →
        (getCullValues culled K prevPath added g w).1 = setAdd culled best) ∧
    (∀ (culled : List StrNode) (K : Nat) (prevPath : List StrNode)
        (added : Nat) (g : Graph) (w : Option String),
        ¬(K ≤ added ∧ added % K = 0 ∧ 3 ≤ prevPath.length) →
        (getCullValues culled K prevPath added g w).1 = culled) ∧
    (∀ (f : StrNode → ℚ) (l : List StrNode) (x : StrNode),
        argmaxFst f l = some x → x ∈ l ∧ ∀ y ∈ l, f y ≤ f x) ∧
    (∀ (getEdge : StrNode → StrNode → Option EdgeData) (g : Graph)
        (fo : FilterOptions) (reverse : Bool) (timeout : Option ℚ)
        (clock : Nat → ℚ) (cands : List (List StrNode)) (c : List StrNode),
        PullRec.sendPull c ∈
          (buildPaths getEdge g fo reverse timeout clock cands).pulls →
        c ⊆ (buildPaths getEdge g fo reverse timeout clock cands).culled) := by
  refine ⟨?_, ?_, ?_, argmaxFst_spec, ?_⟩
  · intro culled K prevPath added g w
    exact ⟨getCullValues_snd _ _ _ _ _ _, getCullValues_mono _ _ _ _ _ _,
      getCullValues_len _ _ _ _ _ _⟩
  · intro culled K prevPath added g w best h1 h2 h3 hb
    unfold getCullValues
    rw [if_pos ⟨h1, h2, h3⟩, hb]
  · intro culled K prevPath added g w h
    unfold getCullValues
    rw [if_neg h]
  · intro getEdge g fo reverse timeout clock cands c hc
    exact buildPathsGo_sent_subset getEdge g fo reverse timeout clock cands
      0 0 none [] [] [] (by intro c' hc'; exact absurd hc' (by simp)) c hc

/-- The filter options of a cull-best-node run with threshold 2 and three
accepted paths. -/
def c6fo : FilterOptions :=
  { cull_best_node := some 2, max_paths := 3 }

/-- The concrete run behind the C6 counterexample: every candidate is the
two-node path A → B. -/
def c6run : BuildOut :=
  buildPaths exGetEdge emptyGraph c6fo false none (fun _ => 0)
    [[StrNode.plain "A", StrNode.plain "B"],
     [StrNode.plain "A", StrNode.plain "B"],
     [StrNode.plain "A", StrNode.plain "B"]]

/-- C6 counterexample: with cull-best-node K = 2, after the second accepted
path the next upstream pull receives an empty culled set — zero newly
excluded nodes, not exactly one — because the two-node accepted path has no
internal node. -/
theorem c6_no_new_culled_counterexample :
    c6run.pathsBuilt = 3 ∧
    c6run.pulls = [PullRec.nextPull, PullRec.sendPull [], PullRec.sendPull []] := by
  constructor <;> decide

/-- The node path of a non-empty edge list has one more entry than it. -/
theorem nodesOfEdges_length (ed : EdgeData) (eds : List EdgeData) :
    (nodesOfEdges (ed :: eds)).length = eds.length + 2 := by
  induction eds generalizing ed with
  | nil => rfl
  | cons e es ih =>
    have heq : nodesOfEdges (ed :: e :: es) = ed.edge.1 :: nodesOfEdges (e :: es) := rfl
    rw [heq, List.length_cons, ih e, List.length_cons]

/-- Every materialized Path has exactly one fewer edge record than nodes and
a non-empty node sequence. -/
theorem buildPathData_prop (getEdge : StrNode → StrNode → Option EdgeData)
    (path : List StrNode) (pd : PathData)
    (h : buildPathData getEdge path = some pd) :
    pd.edge_data.length + 1 = pd.path.length ∧ pd.path ≠ [] := by
  unfold buildPathData at h
  cases hce : collectEdges getEdge (path.zip path.tail) with
  | none => rw [hce] at h; cases h
  | some l =>
    rw [hce] at h
    cases l with
    | nil => cases h
    | cons ed eds =>
      injection h with h
      subst h
      constructor
      · show (ed :: eds).length + 1 = (nodesOfEdges (ed :: eds)).length
        rw [nodesOfEdges_length]
        simp
      · have hlen := nodesOfEdges_length ed eds
        intro hnil
        have h0 : (nodesOfEdges (ed :: eds)).length = 0 := by
          simpa using congrArg List.length hnil
        omega

/-- A bucket insertion preserves a per-path invariant. -/
theorem bucketAdd_inv (P : PathData → Prop)
    (buckets : List (Nat × List PathData)) (n : Nat) (pd : PathData)
    (hb : ∀ kv ∈ buckets, ∀ p ∈ kv.2, P p) (hp : P pd) :
    ∀ kv ∈ bucketAdd buckets n pd, ∀ p ∈ kv.2, P p := by
  intro kv hkv p hpmem
  unfold bucketAdd at hkv
  split at hkv
  · rcases List.mem_map.mp hkv with ⟨kv', hkv', hmap⟩
    subst hmap
    split at hpmem
    · rcases List.mem_append.mp hpmem with hold | hnew
      · exact hb kv' hkv' p hold
      · simp only [List.mem_singleton] at hnew
        subst hnew
        exact hp
    · exact hb kv' hkv' p hpmem
  · rcases List.mem_append.mp hkv with hold | hnew
    · exact hb kv hold p hpmem
    · simp only [List.mem_singleton] at hnew
      subst hnew
      simp only [List.mem_singleton] at hpmem
      subst hpmem
      exact hp

/-- Any invariant of materialized paths holds of every path in the buckets of
a run. -/
theorem buildPathsGo_buckets_inv (getEdge : StrNode → StrNode → Option EdgeData)
    (g : Graph) (fo : FilterOptions) (reverse : Bool) (timeout : Option ℚ)
    (clock : Nat → ℚ) (P : PathData → Prop)
    (hP : ∀ path pd, buildPathData getEdge path = some pd → P pd) :
    ∀ (cands : List (List StrNode)) (k built : Nat)
      (prev : Option (List StrNode)) (culled : List StrNode)
      (buckets : List (Nat × List PathData)) (pulls : List PullRec),
      (∀ kv ∈ buckets, ∀ p ∈ kv.2, P p) →
      ∀ kv ∈ (buildPathsGo getEdge g fo reverse timeout clock cands k built
        prev culled buckets pulls).buckets, ∀ p ∈ kv.2, P p := by
  intro cands
  induction cands with
  | nil =>
    intro k built prev culled buckets pulls hb
    simp only [buildPathsGo]
    split
    · exact hb
    · split
      · exact hb
      · exact hb
  | cons p rest ih =>
    intro k built prev culled buckets pulls hb
    rw [buildPathsGo_cons]
    by_cases h1 : (timeoutTruthy timeout && decide (timeout.getD 0 < clock k)) = true
    · rw [if_pos h1]
      exact hb
    · rw [if_neg h1]
      by_cases h2 : fo.max_paths ≤ built
      · rw [if_pos h2]
        exact hb
      · rw [if_neg h2]
        dsimp only
        by_cases h3 : (pathLenActive fo &&
            decide ((if reverse then p.reverse else p).length <
              fo.path_length.getD 0)) = true
        · rw [if_pos h3]
          exact ih _ _ _ _ _ _ hb
        · rw [if_neg h3]
          by_cases h4 : (pathLenActive fo &&
              decide (fo.path_length.getD 0 <
                (if reverse then p.reverse else p).length)) = true
          · rw [if_pos h4]
            exact hb
          · rw [if_neg h4]
            cases hbd : buildPathData getEdge (if reverse then p.reverse else p) with
            | none =>
              simp only [hbd]
              exact ih _ _ _ _ _ _ hb
            | some pd =>
              simp only [hbd]
              exact ih _ _ _ _ _ _
                (bucketAdd_inv P buckets _ pd hb (hP _ pd hbd))

/-- C9: every Path surfaced in the buckets of any aggregation run has an
edge-data sequence exactly one shorter than its node sequence, and a
non-empty node sequence. -/
theorem c9_path_invariant (getEdge : StrNode → StrNode → Option EdgeData)
    (g : Graph) (fo : FilterOptions) (reverse : Bool) (timeout : Option ℚ)
    (clock : Nat → ℚ) (cands : List (List StrNode)) :
    ∀ kv ∈ (buildPaths getEdge g fo reverse timeout clock cands).buckets,
      ∀ p ∈ kv.2, p.edge_data.length + 1 = p.path.length ∧ p.path ≠ [] :=
  buildPathsGo_buckets_inv getEdge g fo reverse timeout clock _
    (fun path pd h => buildPathData_prop getEdge path pd h)
    cands 0 0 none [] [] []
    (by intro kv hkv; exact absurd hkv (by simp))

/-- The concrete Path the witness run produces. -/
def c9pd : PathData := ⟨[nodeA, nodeB], [abEdgeData]⟩

/-- Closed witness for C9: the invariant evaluated on the concrete run over
the two-node candidate. -/
theorem c9_path_invariant_witness :
    c9pd.edge_data.length + 1 = c9pd.path.length ∧ c9pd.path ≠ [] :=
  c9_path_invariant exGetEdge emptyGraph {} false none (fun _ => 0)
    [[StrNode.plain "A", StrNode.plain "B"]] (2, [c9pd]) (by decide) c9pd
    (by decide)

end IndraNet
